import Mathlib

/-!
Shallow embedding of the chess engine (myMinimax.ts / moveValidation.ts /
board.ts of the repository) and proofs about the claims of its
specification.  All definitions are translated from the TypeScript source;
JavaScript numbers are modelled as `Int`, the two sentinel values
`Infinity` / `-Infinity` (used only as initial alpha/beta bounds and the
initial best score, never in arithmetic) are modelled by the constant
`INF` which is far larger than every score the engine can produce, and
`JSON.stringify` is modelled by an explicit character-level serializer.
-/

set_option maxRecDepth 100000

namespace Chess

inductive PieceColor where
  | white
  | black
deriving DecidableEq, Repr

inductive PieceType where
  | p
  | n
  | b
  | r
  | q
  | k
deriving DecidableEq, Repr

structure Piece where
  type : PieceType
  color : PieceColor
deriving DecidableEq, Repr

structure Position where
  row : Int
  col : Int
deriving DecidableEq, Repr

/-- `Board` is `(Piece | null)[][]` of the source: a list of rows, each row a
list of optional pieces. -/
abbrev Board := List (List (Option Piece))

structure Move where
  from_ : Position
  to_ : Position
  piece : Piece
  captured : Option Piece := none
  promotion : Option PieceType := none
  isCastling : Bool := false
  isEnPassant : Bool := false
deriving DecidableEq, Repr

structure CastlingRights where
  whiteKingSide : Bool
  whiteQueenSide : Bool
  blackKingSide : Bool
  blackQueenSide : Bool
deriving DecidableEq, Repr

/-- Reading `board[row][col]`: `none` for out-of-range access (JS
`undefined`) and for `null` squares alike; the source only distinguishes
them by truthiness. -/
def getCell (board : Board) (row col : Int) : Option Piece :=
  if row < 0 ∨ col < 0 then none
  else match board.get? row.toNat with
    | none => none
    | some rowList =>
      match rowList.get? col.toNat with
      | none => none
      | some cell => cell

/-- Writing `board[row][col] = v`; in-range writes only, which is the only
way the source writes (all writes are at generated move coordinates). -/
def setCell (board : Board) (row col : Int) (v : Option Piece) : Board :=
  if row < 0 ∨ col < 0 then board
  else match board.get? row.toNat with
    | none => board
    | some rowList => board.set row.toNat (rowList.set col.toNat v)

def otherColor (c : PieceColor) : PieceColor :=
  match c with
  | .white => .black
  | .black => .white

/-! moveValidation.ts -/

def isValidPosition (pos : Position) : Bool :=
  0 ≤ pos.row && pos.row < 8 && 0 ≤ pos.col && pos.col < 8

def getPawnMoves (board : Board) (from_ : Position) (color : PieceColor) :
    List Position :=
  let direction : Int := if color = .white then 1 else -1
  let startRow : Int := if color = .white then 1 else 6
  let oneForward : Position := ⟨from_.row + direction, from_.col⟩
  let forwardMoves :=
    if isValidPosition oneForward &&
        (getCell board oneForward.row oneForward.col).isNone then
      let twoForward : Position := ⟨from_.row + 2 * direction, from_.col⟩
      if from_.row = startRow &&
          isValidPosition twoForward &&
          (getCell board twoForward.row twoForward.col).isNone then
        [oneForward, twoForward]
      else
        [oneForward]
    else []
  let captureLeft : Position := ⟨from_.row + direction, from_.col - 1⟩
  let captureRight : Position := ⟨from_.row + direction, from_.col + 1⟩
  let captureMoves := [captureLeft, captureRight].filter fun pos =>
    isValidPosition pos &&
      match getCell board pos.row pos.col with
      | some target => target.color ≠ color
      | none => false
  forwardMoves ++ captureMoves

def knightOffsets : List (Int × Int) :=
  [(-2, -1), (-2, 1), (-1, -2), (-1, 2), (1, -2), (1, 2), (2, -1), (2, 1)]

def getKnightMoves (board : Board) (from_ : Position) (color : PieceColor) :
    List Position :=
  knightOffsets.filterMap fun off =>
    let pos : Position := ⟨from_.row + off.1, from_.col + off.2⟩
    if isValidPosition pos then
      match getCell board pos.row pos.col with
      | some target => if target.color ≠ color then some pos else none
      | none => some pos
    else none

/-- The `while (isValidPosition …)` walk of `getLinearMoves`; starting
anywhere, a ray with a nonzero unit step stays inside the 8-wide board for
at most 8 steps, so fuel 9 never runs out before the loop condition fails. -/
def linearWalk (board : Board) (color : PieceColor) (rowDir colDir : Int) :
    Nat → Int → Int → List Position
  | 0, _, _ => []
  | fuel + 1, row, col =>
    if isValidPosition ⟨row, col⟩ then
      match getCell board row col with
      | none => ⟨row, col⟩ :: linearWalk board color rowDir colDir fuel
          (row + rowDir) (col + colDir)
      | some target => if target.color ≠ color then [⟨row, col⟩] else []
    else []

def getLinearMoves (board : Board) (from_ : Position) (color : PieceColor)
    (directions : List (Int × Int)) : List Position :=
  directions.flatMap fun dir =>
    linearWalk board color dir.1 dir.2 9 (from_.row + dir.1) (from_.col + dir.2)

def getBishopMoves (board : Board) (from_ : Position) (color : PieceColor) :
    List Position :=
  getLinearMoves board from_ color [(-1, -1), (-1, 1), (1, -1), (1, 1)]

def getRookMoves (board : Board) (from_ : Position) (color : PieceColor) :
    List Position :=
  getLinearMoves board from_ color [(-1, 0), (1, 0), (0, -1), (0, 1)]

def getQueenMoves (board : Board) (from_ : Position) (color : PieceColor) :
    List Position :=
  getLinearMoves board from_ color
    [(-1, -1), (-1, 0), (-1, 1), (0, -1), (0, 1), (1, -1), (1, 0), (1, 1)]

def kingOffsets : List (Int × Int) :=
  [(-1, -1), (-1, 0), (-1, 1), (0, -1), (0, 1), (1, -1), (1, 0), (1, 1)]

def getKingMoves (board : Board) (from_ : Position) (color : PieceColor) :
    List Position :=
  kingOffsets.filterMap fun off =>
    let pos : Position := ⟨from_.row + off.1, from_.col + off.2⟩
    if isValidPosition pos then
      match getCell board pos.row pos.col with
      | some target => if target.color ≠ color then some pos else none
      | none => some pos
    else none

/-- `getValidMoves(board, from, piece)`: pseudo-legal destinations per piece
type.  (The engine passes a fourth `lastMove` argument at its call sites,
but this three-parameter function ignores it; there is no en-passant
generation here.) -/
def getValidMoves (board : Board) (from_ : Position) (piece : Piece) :
    List Position :=
  match piece.type with
  | .p => getPawnMoves board from_ piece.color
  | .n => getKnightMoves board from_ piece.color
  | .b => getBishopMoves board from_ piece.color
  | .r => getRookMoves board from_ piece.color
  | .q => getQueenMoves board from_ piece.color
  | .k => getKingMoves board from_ piece.color

def isPositionEqual (a b : Position) : Bool :=
  a.row = b.row && a.col = b.col

/-- Index pairs (row, col) scanned by the 0..7 × 0..7 loops, row-major. -/
def boardIndices : List (Int × Int) :=
  (List.range 8).flatMap fun row =>
    (List.range 8).map fun col => ((row : Int), (col : Int))

def findKing (board : Board) (color : PieceColor) : Option Position :=
  (boardIndices.find? fun rc =>
      match getCell board rc.1 rc.2 with
      | some piece => piece.type = .k && piece.color = color
      | none => false).map fun rc => ⟨rc.1, rc.2⟩

def isPositionUnderAttack (board : Board) (position : Position)
    (byColor : PieceColor) : Bool :=
  boardIndices.any fun rc =>
    match getCell board rc.1 rc.2 with
    | some piece =>
      piece.color = byColor &&
        (getValidMoves board ⟨rc.1, rc.2⟩ piece).any fun move =>
          isPositionEqual move position
    | none => false

def isKingInCheck (board : Board) (kingColor : PieceColor) : Bool :=
  match findKing board kingColor with
  | none => false
  | some kingPos => isPositionUnderAttack board kingPos (otherColor kingColor)

def wouldMoveResultInCheck (board : Board) (from_ to_ : Position)
    (playerColor : PieceColor) : Bool :=
  let piece := getCell board from_.row from_.col
  let tempBoard := setCell (setCell board to_.row to_.col piece)
    from_.row from_.col none
  isKingInCheck tempBoard playerColor

structure SideRights where
  kingSide : Bool
  queenSide : Bool
deriving DecidableEq, Repr

def getCastlingMoves (board : Board) (from_ : Position) (color : PieceColor)
    (castlingRights : SideRights) (isInCheck : Bool) : List Position :=
  let row : Int := if color = .white then 0 else 7
  let enemyColor := otherColor color
  if from_.row ≠ row ∨ from_.col ≠ 3 then []
  else if isInCheck then []
  else
    let kingSideMoves :=
      if castlingRights.kingSide then
        let rook := getCell board row 7
        let allClear := ([4, 5] : List Int).all fun col =>
          (getCell board row col).isNone
        let notUnderAttack := ([4, 5] : List Int).all fun col =>
          !isPositionUnderAttack board ⟨row, col⟩ enemyColor
        match rook with
        | some rk =>
          if rk.type = .r && rk.color = color && allClear && notUnderAttack
          then [⟨row, 5⟩] else []
        | none => []
      else []
    let queenSideMoves :=
      if castlingRights.queenSide then
        let rook := getCell board row 0
        let allClear := ([1, 2] : List Int).all fun col =>
          (getCell board row col).isNone
        let notUnderAttack := ([1, 2] : List Int).all fun col =>
          !isPositionUnderAttack board ⟨row, col⟩ enemyColor
        match rook with
        | some rk =>
          if rk.type = .r && rk.color = color && allClear && notUnderAttack
          then [⟨row, 1⟩] else []
        | none => []
      else []
    kingSideMoves ++ queenSideMoves

/-! board.ts -/

def createInitialBoard : Board :=
  let backRow : List (Option Piece) :=
    [some ⟨.r, .white⟩, some ⟨.n, .white⟩, some ⟨.b, .white⟩,
     some ⟨.k, .white⟩, some ⟨.q, .white⟩, some ⟨.b, .white⟩,
     some ⟨.n, .white⟩, some ⟨.r, .white⟩]
  let pawnRow : List (Option Piece) := List.replicate 8 (some ⟨.p, .white⟩)
  let blackBackRow : List (Option Piece) :=
    [some ⟨.r, .black⟩, some ⟨.n, .black⟩, some ⟨.b, .black⟩,
     some ⟨.k, .black⟩, some ⟨.q, .black⟩, some ⟨.b, .black⟩,
     some ⟨.n, .black⟩, some ⟨.r, .black⟩]
  let blackPawnRow : List (Option Piece) := List.replicate 8 (some ⟨.p, .black⟩)
  let emptyRow : List (Option Piece) := List.replicate 8 none
  [backRow, pawnRow, emptyRow, emptyRow, emptyRow, emptyRow,
   blackPawnRow, blackBackRow]

/-! myMinimax.ts: position hashing (`JSON.stringify({b, s, c})`),
transposition table, repetition detection. -/

def lbrace : Char := Char.ofNat 123

def rbrace : Char := Char.ofNat 125

def jchars (s : String) : List Char := s.data

def typeChar (t : PieceType) : Char :=
  match t with
  | .p => 'p'
  | .n => 'n'
  | .b => 'b'
  | .r => 'r'
  | .q => 'q'
  | .k => 'k'

def serializeColor (c : PieceColor) : List Char :=
  match c with
  | .white => jchars "\"white\""
  | .black => jchars "\"black\""

def serializeCell (cell : Option Piece) : List Char :=
  match cell with
  | none => jchars "null"
  | some pc =>
    lbrace :: jchars "\"type\":\"" ++ [typeChar pc.type] ++
      jchars "\",\"color\":" ++ serializeColor pc.color ++ [rbrace]

def serializeSep (elem : α → List Char) : List α → List Char
  | [] => []
  | [x] => elem x
  | x :: y :: xs => elem x ++ ',' :: serializeSep elem (y :: xs)

def serializeRow (row : List (Option Piece)) : List Char :=
  '[' :: serializeSep serializeCell row ++ [']']

def serializeBoard (board : Board) : List Char :=
  '[' :: serializeSep serializeRow board ++ [']']

def serializeBool (b : Bool) : List Char :=
  if b then jchars "true" else jchars "false"

def serializeRights (r : CastlingRights) : List Char :=
  lbrace :: jchars "\"whiteKingSide\":" ++ serializeBool r.whiteKingSide ++
    jchars ",\"whiteQueenSide\":" ++ serializeBool r.whiteQueenSide ++
    jchars ",\"blackKingSide\":" ++ serializeBool r.blackKingSide ++
    jchars ",\"blackQueenSide\":" ++ serializeBool r.blackQueenSide ++ [rbrace]

/-- `hashPosition`: `JSON.stringify({b: board, s: sideToMove, c:
castlingRights})`; an `undefined` castlingRights is omitted from the
output, as `JSON.stringify` drops undefined properties. -/
def hashPosition (board : Board) (sideToMove : PieceColor)
    (castlingRights : Option CastlingRights) : String :=
  String.mk <|
    lbrace :: jchars "\"b\":" ++ serializeBoard board ++
      jchars ",\"s\":" ++ serializeColor sideToMove ++
      (match castlingRights with
       | none => []
       | some r => jchars ",\"c\":" ++ serializeRights r) ++ [rbrace]

def pieceValue (t : PieceType) : Int :=
  match t with
  | .p => 100
  | .n => 320
  | .b => 330
  | .r => 500
  | .q => 900
  | .k => 20000

inductive TTFlag where
  | fexact
  | falpha
  | fbeta
deriving DecidableEq, Repr

structure TTEntry where
  depth : Int
  score : Int
  flag : TTFlag
  bestMove : Option Move
  age : Int
deriving DecidableEq, Repr

/-- The transposition table, a JS `Map` in insertion order. -/
abbrev TTable := List (String × TTEntry)

def mapGet (m : TTable) (key : String) : Option TTEntry :=
  (m.find? fun kv => kv.1 = key).map (·.2)

/-- `Map.set`: replace in place when the key exists, append otherwise. -/
def mapSet (m : TTable) (key : String) (v : TTEntry) : TTable :=
  if m.any fun kv => kv.1 = key then
    m.map fun kv => if kv.1 = key then (key, v) else kv
  else m ++ [(key, v)]

def MAX_TT_SIZE : Nat := 1000000

/-- The eviction scan of `storeTT`: walk the table in insertion order
collecting keys whose age is more than 2 behind, stopping once more than
`MAX_TT_SIZE / 10` keys are collected. -/
def collectStale (currentAge : Int) : TTable → List String → List String
  | [], acc => acc
  | (key, entry) :: rest, acc =>
    let acc' := if entry.age < currentAge - 2 then acc ++ [key] else acc
    if acc'.length > MAX_TT_SIZE / 10 then acc'
    else collectStale currentAge rest acc'

def storeTT (tt : TTable) (currentAge : Int) (hash : String) (depth score : Int)
    (flag : TTFlag) (bestMove : Option Move) : TTable :=
  let tt1 :=
    if tt.length ≥ MAX_TT_SIZE then
      let toRemove := collectStale currentAge tt []
      tt.filter fun kv => ¬ toRemove.contains kv.1
    else tt
  mapSet tt1 hash ⟨depth, score, flag, bestMove, currentAge⟩

def thirdRepLoop (key : String) : Int → List String → Bool
  | _, [] => false
  | count, h :: t =>
    if h = key then
      if count + 1 ≥ 2 then true else thirdRepLoop key (count + 1) t
    else thirdRepLoop key count t

def isThirdRepetition (key : String) (history : List String) : Bool :=
  thirdRepLoop key 0 history

/-! myMinimax.ts: killer moves, history heuristic, move ordering. -/

def sameFromTo (a m : Move) : Bool :=
  a.from_.row = m.from_.row && a.from_.col = m.from_.col &&
    a.to_.row = m.to_.row && a.to_.col = m.to_.col

/-- `killerMoves` is a 100-entry array of move lists; `historyTable` an
8×8×8×8 integer array.  Both are modelled as total functions, read and
written only at the indices the source uses. -/
structure Tables where
  killers : Int → List Move
  historyT : Int → Int → Int → Int → Int

def clearKillers (t : Tables) : Tables :=
  { t with killers := fun _ => [] }

def storeKiller (t : Tables) (move : Move) (ply : Int) : Tables :=
  if ply ≥ 100 then t
  else if move.captured.isSome then t
  else
    let ks := t.killers ply
    if ks.any fun ki => sameFromTo ki move then t
    else
      let ks' := (move :: ks).take 2
      { t with killers := fun i => if i = ply then ks' else t.killers i }

def updateHistory (t : Tables) (move : Move) (depth : Int) : Tables :=
  let bonus := depth * depth
  { t with historyT := fun fr fc tr tc =>
      if fr = move.from_.row ∧ fc = move.from_.col ∧
          tr = move.to_.row ∧ tc = move.to_.col then
        t.historyT fr fc tr tc + bonus
      else t.historyT fr fc tr tc }

def scoreMove (t : Tables) (move : Move) (ply : Int)
    (ttBestMove : Option Move) : Int :=
  if (match ttBestMove with
      | some tb => sameFromTo tb move
      | none => false) then 1000000
  else match move.captured with
  | some victim => 100000 + (pieceValue victim.type * 10 - pieceValue move.piece.type)
  | none =>
    match move.promotion with
    | some pr => 90000 + pieceValue pr
    | none =>
      let killerScore : Option Int :=
        if ply < 100 then
          match (t.killers ply).findIdx? fun ki => sameFromTo ki move with
          | some 0 => some 80000
          | some 1 => some 70000
          | _ => none
        else none
      match killerScore with
      | some s => s
      | none => t.historyT move.from_.row move.from_.col move.to_.row move.to_.col

/-- Stable insertion used to model `Array.prototype.sort` (stable in JS)
with comparator `scoreMove(b) - scoreMove(a)`, i.e. descending by score. -/
def insertByDesc (key : Move → Int) (x : Move) : List Move → List Move
  | [] => [x]
  | y :: ys => if key x > key y then x :: y :: ys else y :: insertByDesc key x ys

def stableSortDesc (key : Move → Int) (l : List Move) : List Move :=
  l.foldl (fun acc x => insertByDesc key x acc) []

def orderMoves (t : Tables) (moves : List Move) (ply : Int)
    (ttBestMove : Option Move) : List Move :=
  stableSortDesc (fun m => scoreMove t m ply ttBestMove) moves

/-! myMinimax.ts: legal move generation and move application helpers. -/

def movesForCell (board : Board) (color : PieceColor)
    (castlingRights : Option CastlingRights) (row col : Int) : List Move :=
  match getCell board row col with
  | none => []
  | some piece =>
    if piece.color ≠ color then []
    else
      let from_ : Position := ⟨row, col⟩
      let possibleMoves := getValidMoves board from_ piece
      let legalMoves := possibleMoves.filter fun t =>
        !wouldMoveResultInCheck board from_ t piece.color
      let normalMoves : List Move := legalMoves.map fun t =>
        { from_ := from_, to_ := t, piece := piece,
          captured := getCell board t.row t.col }
      let castlingMoves : List Move :=
        if piece.type = .k then
          match castlingRights with
          | some cr =>
            let rights : SideRights :=
              if color = .white then ⟨cr.whiteKingSide, cr.whiteQueenSide⟩
              else ⟨cr.blackKingSide, cr.blackQueenSide⟩
            let inCheck := isKingInCheck board color
            (getCastlingMoves board from_ color rights inCheck).map fun t =>
              { from_ := from_, to_ := t, piece := piece, isCastling := true }
          | none => []
        else []
      normalMoves ++ castlingMoves

/-- `getValidMovesForColor`; the `lastMove` parameter is forwarded to
`getValidMoves`, which takes only three parameters and ignores it. -/
def getValidMovesForColor (board : Board) (color : PieceColor)
    (castlingRights : Option CastlingRights) (lastMove : Option Move) :
    List Move :=
  (List.range board.length).flatMap fun row =>
    (List.range ((board.get? row).getD []).length).flatMap fun col =>
      movesForCell board color castlingRights (row : Int) (col : Int)

def applyMove (board : Board) (move : Move) : Board :=
  let newBoard := board
  match getCell newBoard move.from_.row move.from_.col with
  | none => newBoard
  | some piece =>
    let b1 := setCell newBoard move.to_.row move.to_.col (some piece)
    let b2 := setCell b1 move.from_.row move.from_.col none
    let b3 :=
      if move.isCastling && piece.type = .k then
        if move.to_.col = 5 then
          let rook := getCell b2 move.from_.row 7
          setCell (setCell b2 move.from_.row 4 rook) move.from_.row 7 none
        else if move.to_.col = 1 then
          let rook := getCell b2 move.from_.row 0
          setCell (setCell b2 move.from_.row 2 rook) move.from_.row 0 none
        else b2
      else b2
    let b4 :=
      if move.isEnPassant && piece.type = .p then
        setCell b3 move.from_.row move.to_.col none
      else b3
    if piece.type = .p then
      let promotionRow : Int := if piece.color = .white then 7 else 0
      if move.to_.row = promotionRow then
        setCell b4 move.to_.row move.to_.col (some ⟨.q, piece.color⟩)
      else b4
    else b4

def updateCastlingRights (rights : Option CastlingRights) (move : Move)
    (board : Board) : Option CastlingRights :=
  match rights with
  | none => none
  | some r =>
    match getCell board move.from_.row move.from_.col with
    | none => some r
    | some piece =>
      let r1 :=
        if piece.type = .k then
          if piece.color = .white then
            { r with whiteKingSide := false, whiteQueenSide := false }
          else
            { r with blackKingSide := false, blackQueenSide := false }
        else r
      let r2 :=
        if piece.type = .r then
          if piece.color = .white ∧ move.from_.row = 0 then
            let a := if move.from_.col = 0 then
              { r1 with whiteQueenSide := false } else r1
            if move.from_.col = 7 then { a with whiteKingSide := false } else a
          else if piece.color = .black ∧ move.from_.row = 7 then
            let a := if move.from_.col = 0 then
              { r1 with blackQueenSide := false } else r1
            if move.from_.col = 7 then { a with blackKingSide := false } else a
          else r1
        else r1
      some r2

/-! myMinimax.ts: the search engine.  The module-level mutable state
(`transpositionTable`, `currentAge`, `killerMoves`, `historyTable`) is the
`EngineState` threaded through `myMinimaxMove`; the per-invocation locals
(`timeExpired`, and the sequence of `Date.now()` comparisons, modelled by
an oracle of the successive outcomes of the time check) live in `SState`.
`Infinity` / `-Infinity` are modelled by `INF`, which dominates every
score the engine computes (scores stay within ±100000 plus evaluation
values); recursion is made total with a fuel argument whose exhaustion
returns score 0, like an expired clock. -/

def INF : Int := 1000000000

structure SearchCfg where
  rootColor : PieceColor
  evalFn : Board → PieceColor → Int
  maxTime : Option Int
  oracle : Nat → Bool

structure EngineState where
  tt : TTable
  tables : Tables
  age : Int

structure SState where
  tt : TTable
  tables : Tables
  age : Int
  expired : Bool
  checks : Nat

/-- `isTimeExpired()`: sticky once true; when `maxTime` is undefined the
clock is never consulted. -/
def checkTime (cfg : SearchCfg) (s : SState) : Bool × SState :=
  if s.expired then (true, s)
  else match cfg.maxTime with
    | none => (false, s)
    | some _ =>
      let r := cfg.oracle s.checks
      (r, { s with checks := s.checks + 1, expired := r })

def mateValue : Int := 100000

/-- The capture loop of `quiescence`, parameterized by the recursive call. -/
def qloop (cfg : SearchCfg)
    (recur : Board → PieceColor → Int → Int → Option CastlingRights →
      SState → Int × SState)
    (board : Board) (side : PieceColor) (beta : Int)
    (rights : Option CastlingRights) :
    List Move → Int → SState → Int × SState
  | [], alpha, s => (alpha, s)
  | move :: rest, alpha, s =>
    let es := checkTime cfg s
    if es.1 then (alpha, es.2)
    else
      let newBoard := applyMove board move
      let newRights := updateCastlingRights rights move board
      let r := recur newBoard (otherColor side) (-beta) (-alpha) newRights es.2
      let score := -r.1
      if score ≥ beta then (beta, r.2)
      else qloop cfg recur board side beta rights rest (max alpha score) r.2

def quiescence (cfg : SearchCfg) :
    Nat → Board → PieceColor → Int → Int → Option CastlingRights →
      SState → Int × SState
  | 0, _, _, _, _, _, s => (0, s)
  | fuel + 1, board, side, alpha, beta, rights, s =>
    let es := checkTime cfg s
    if es.1 then (0, es.2)
    else
      let s := es.2
      let sign : Int := if side = cfg.rootColor then 1 else -1
      let standPatRoot := cfg.evalFn board cfg.rootColor
      let standPat := sign * standPatRoot
      if standPat ≥ beta then (beta, s)
      else
        let alpha := max alpha standPat
        let moves := getValidMovesForColor board side rights none
        let captures := moves.filter fun m => m.captured.isSome
        let sorted := stableSortDesc
          (fun m => pieceValue ((m.captured.getD ⟨.p, side⟩).type) * 10 -
            pieceValue m.piece.type) captures
        qloop cfg (quiescence cfg fuel) board side beta rights sorted alpha s

/-- The per-move accumulator of the negamax move loop. -/
structure NLoopAcc where
  movesSearched : Int
  bestScore : Int
  bestMoveLocal : Option Move
  alpha : Int

/-- The move loop of `negamax`, parameterized by the recursive call. -/
def nloop (cfg : SearchCfg)
    (recur : Board → PieceColor → Int → Int → Int → Option CastlingRights →
      Int → Bool → List String → SState → Int × SState)
    (board : Board) (side : PieceColor) (depth : Int) (beta : Int)
    (rights : Option CastlingRights) (ply : Int) (inCheck : Bool)
    (history : List String) :
    List Move → NLoopAcc → SState → NLoopAcc × SState
  | [], acc, s => (acc, s)
  | move :: rest, acc, s =>
    let es := checkTime cfg s
    if es.1 then (acc, es.2)
    else
      let s := es.2
      let newBoard := applyMove board move
      let newRights := updateCastlingRights rights move board
      let newHash := hashPosition newBoard (otherColor side) newRights
      let scoreS : Int × SState :=
        if isThirdRepetition newHash history then
          let evalFromRoot := cfg.evalFn newBoard cfg.rootColor
          let sign : Int := if side = cfg.rootColor then 1 else -1
          let evalFromSide := sign * evalFromRoot
          (if evalFromSide > 200 then -150
           else if evalFromSide < -200 then 150
           else 0, s)
        else
          let newHistory := history ++ [newHash]
          let isLateMove := acc.movesSearched ≥ 4 && depth ≥ 3 && !inCheck &&
            move.captured.isNone && move.promotion.isNone
          let reduction : Int := if isLateMove then 1 else 0
          if acc.movesSearched = 0 then
            let r := recur newBoard (otherColor side) (depth - 1) (-beta)
              (-acc.alpha) newRights (ply + 1) true newHistory s
            (-r.1, r.2)
          else
            let r := recur newBoard (otherColor side) (depth - 1 - reduction)
              (-beta) (-acc.alpha) newRights (ply + 1) true newHistory s
            let score := -r.1
            if reduction > 0 ∧ score > acc.alpha then
              let r2 := recur newBoard (otherColor side) (depth - 1) (-beta)
                (-acc.alpha) newRights (ply + 1) true newHistory r.2
              (-r2.1, r2.2)
            else (score, r.2)
      let score := scoreS.1
      let s := scoreS.2
      let movesSearched := acc.movesSearched + 1
      let best :=
        if score > acc.bestScore then (score, some move)
        else (acc.bestScore, acc.bestMoveLocal)
      let state2 :=
        if best.1 > acc.alpha then
          if move.captured.isNone then
            let tbl := updateHistory (storeKiller s.tables move ply) move depth
            { s with tables := tbl }
          else s
        else s
      let alpha2 := if best.1 > acc.alpha then best.1 else acc.alpha
      let acc2 : NLoopAcc := ⟨movesSearched, best.1, best.2, alpha2⟩
      if alpha2 ≥ beta then (acc2, state2)
      else nloop cfg recur board side depth beta rights ply inCheck history
        rest acc2 state2

def negamax (cfg : SearchCfg) :
    Nat → Board → PieceColor → Int → Int → Int → Option CastlingRights →
      Int → Bool → List String → SState → Int × SState
  | 0, _, _, _, _, _, _, _, _, _, s => (0, s)
  | fuel + 1, board, side, depth, alpha, beta, rights, ply, allowNull,
      history, s =>
    let es := checkTime cfg s
    if es.1 then (0, es.2)
    else
      let s := es.2
      let hash := hashPosition board side rights
      let alphaOrig := alpha
      let ttEntry := mapGet s.tt hash
      let alpha := max alpha (-mateValue + ply)
      let beta := min beta (mateValue - ply - 1)
      if alpha ≥ beta then (alpha, s)
      else
        let ttHit : Option Int :=
          match ttEntry with
          | some e =>
            if e.depth ≥ depth then
              match e.flag with
              | .fexact => some e.score
              | .falpha => if e.score ≤ alpha then some e.score else none
              | .fbeta => if e.score ≥ beta then some e.score else none
            else none
          | none => none
        match ttHit with
        | some sc => (sc, s)
        | none =>
          if depth ≤ 0 then quiescence cfg fuel board side alpha beta rights s
          else
            let moves := getValidMovesForColor board side rights none
            if moves.isEmpty then
              (if isKingInCheck board side then -mateValue + ply else 0, s)
            else
              let inCheck := isKingInCheck board side
              let cont : SState → Int × SState := fun s =>
                let sorted := orderMoves s.tables moves ply
                  (ttEntry.bind (·.bestMove))
                let lr := nloop cfg (negamax cfg fuel) board side depth beta
                  rights ply inCheck history sorted
                  ⟨0, -INF, none, alpha⟩ s
                let acc := lr.1
                let es2 := checkTime cfg lr.2
                if es2.1 then (acc.bestScore, es2.2)
                else
                  let flag : TTFlag :=
                    if acc.bestScore ≤ alphaOrig then .falpha
                    else if acc.bestScore ≥ beta then .fbeta
                    else .fexact
                  let tt2 := storeTT es2.2.tt es2.2.age hash depth
                    acc.bestScore flag acc.bestMoveLocal
                  (acc.bestScore, { es2.2 with tt := tt2 })
              if allowNull && !inCheck && depth ≥ 3 then
                let r := negamax cfg fuel board (otherColor side)
                  (depth - 1 - 2) (-beta) (-beta + 1) rights (ply + 1) false
                  history s
                let nullScore := -r.1
                if nullScore ≥ beta then (beta, r.2)
                else cont r.2
              else cont s

/-- The per-move score block of the root loop: repetition bias, or a
negamax recursion with the aspiration re-search. -/
def rootMoveScore (cfg : SearchCfg) (fuel : Nat) (board : Board)
    (color : PieceColor) (rights : Option CastlingRights)
    (depth beta alpha : Int) (history : List String) (move : Move)
    (s : SState) : Int × SState :=
  let newBoard := applyMove board move
  let newRights := updateCastlingRights rights move board
  let newHash := hashPosition newBoard (otherColor color) newRights
  if isThirdRepetition newHash history then
    let evalFromRoot := cfg.evalFn newBoard cfg.rootColor
    let sign : Int := if color = cfg.rootColor then 1 else -1
    let evalFromSide := sign * evalFromRoot
    (if evalFromSide > 200 then -150
     else if evalFromSide < -200 then 150
     else 0, s)
  else
    let newHistory := history ++ [newHash]
    let r := negamax cfg fuel newBoard (otherColor color) (depth - 1)
      (-beta) (-alpha) newRights 1 true newHistory s
    let score := -r.1
    if (score ≤ alpha ∨ score ≥ beta) ∧ depth > 3 then
      let r2 := negamax cfg fuel newBoard (otherColor color) (depth - 1)
        (-INF) INF newRights 1 true newHistory r.2
      (-r2.1, r2.2)
    else (score, r.2)

/-- The root move loop of `searchRoot`. -/
def rloop (cfg : SearchCfg) (fuel : Nat) (board : Board) (color : PieceColor)
    (rights : Option CastlingRights) (depth : Int) (beta : Int)
    (history : List String) :
    List Move → Int → Option Move → Int → SState → Option Move × SState
  | [], _, bm, _, s => (bm, s)
  | move :: rest, bestScore, bm, alpha, s =>
    let es := checkTime cfg s
    if es.1 then (bm, es.2)
    else
      let scoreS : Int × SState :=
        rootMoveScore cfg fuel board color rights depth beta alpha history
          move es.2
      let score := scoreS.1
      let s := scoreS.2
      let best :=
        if score > bestScore then (score, some move) else (bestScore, bm)
      let alpha2 := if best.1 > alpha then best.1 else alpha
      if alpha2 ≥ beta then (best.2, s)
      else rloop cfg fuel board color rights depth beta history rest best.1
        best.2 alpha2 s

/-- `searchRoot`; its return value is the updated `bestMoveAtRoot` closure
variable (which the source returns, and which stays unchanged on the
zero-moves and time-expired early exits). -/
def searchRoot (cfg : SearchCfg) (fuel : Nat) (board : Board)
    (color : PieceColor) (rights : Option CastlingRights) (depth : Int)
    (history : List String) (bm : Option Move) (s : SState) :
    Option Move × SState :=
  let es := checkTime cfg s
  if es.1 then (bm, es.2)
  else
    let s := es.2
    let moves := getValidMovesForColor board color rights none
    if moves.isEmpty then (bm, s)
    else
      let ttRoot := mapGet s.tt (hashPosition board color rights)
      let sorted := orderMoves s.tables moves 0 (ttRoot.bind (·.bestMove))
      let ab : Int × Int :=
        if depth > 3 ∧ bm.isSome then
          let previousScore := cfg.evalFn board cfg.rootColor
          (previousScore - 50, previousScore + 50)
        else (-INF, INF)
      rloop cfg fuel board color rights depth ab.2 history sorted (-INF) bm
        ab.1 s

/-- The iterative-deepening loop of `myMinimaxMove`; `n` counts the
remaining iterations, `d` is `currentDepth`. -/
def driver (cfg : SearchCfg) (fuel : Nat) (board : Board)
    (color : PieceColor) (rights : Option CastlingRights)
    (history : List String) :
    Nat → Int → Option Move → SState → Option Move × SState
  | 0, _, bm, s => (bm, s)
  | n + 1, d, bm, s =>
    let es := checkTime cfg s
    if es.1 then (bm, es.2)
    else
      let previousBest := bm
      let rr := searchRoot cfg fuel board color rights d history bm es.2
      let bm2 := rr.1
      let es2 := checkTime cfg rr.2
      let s2 := es2.2
      if es2.1 ∧ d > 1 then (previousBest, s2)
      else
        let mateBreak : Bool :=
          bm2.isSome &&
            match mapGet s2.tt (hashPosition board color rights) with
            | some e => decide (99000 < |e.score|)
            | none => false
        if mateBreak then (bm2, s2)
        else driver cfg fuel board color rights history n (d + 1) bm2 s2

def myMinimaxMove (fuel : Nat) (g : EngineState) (board : Board)
    (color : PieceColor) (depth : Int) (evalFn : Board → PieceColor → Int)
    (maxTime : Option Int) (oracle : Nat → Bool)
    (castlingRights : Option CastlingRights)
    (positionHistory : List String) : Option Move × EngineState :=
  let cfg : SearchCfg := ⟨color, evalFn, maxTime, oracle⟩
  let s0 : SState :=
    { tt := g.tt, tables := clearKillers g.tables, age := g.age + 1,
      expired := false, checks := 0 }
  let baseHistory := positionHistory ++ [hashPosition board color castlingRights]
  let allMoves := getValidMovesForColor board color castlingRights none
  let bm0 := allMoves.head?
  let depth' := if depth = 0 then 1000 else depth
  let r := driver cfg fuel board color castlingRights baseHistory
    depth'.toNat 1 bm0 s0
  (r.1, ⟨r.2.tt, r.2.tables, r.2.age⟩)

/-- The module-load state of the engine: empty transposition table, age 0,
empty killer lists, all-zero history table. -/
def initialEngineState : EngineState :=
  ⟨[], ⟨fun _ => [], fun _ _ _ _ => 0⟩, 0⟩

/-- An 8×8 board, the well-formedness the source assumes. -/
def isStdBoard (b : Board) : Prop :=
  b.length = 8 ∧ ∀ row ∈ b, row.length = 8

instance (b : Board) : Decidable (isStdBoard b) := by
  unfold isStdBoard; infer_instance

/-! A decoder for the `hashPosition` encoding, used to prove that the
encoding is injective (the transposition table performs no secondary
equality check, so two distinct positions must never share a key). -/

def dropToken : List Char → List Char → Option (List Char)
  | [], rest => some rest
  | _ :: _, [] => none
  | p :: ps, c :: cs => if c = p then dropToken ps cs else none

def charToType (c : Char) : Option PieceType :=
  if c = 'p' then some .p
  else if c = 'n' then some .n
  else if c = 'b' then some .b
  else if c = 'r' then some .r
  else if c = 'q' then some .q
  else if c = 'k' then some .k
  else none

def parseColorChars (l : List Char) : Option (PieceColor × List Char) :=
  match dropToken (jchars "\"white\"") l with
  | some rest => some (.white, rest)
  | none =>
    match dropToken (jchars "\"black\"") l with
    | some rest => some (.black, rest)
    | none => none

def parseCellChars (l : List Char) : Option (Option Piece × List Char) :=
  match dropToken (jchars "null") l with
  | some rest => some (none, rest)
  | none =>
    match dropToken (lbrace :: jchars "\"type\":\"") l with
    | none => none
    | some rest1 =>
      match rest1 with
      | [] => none
      | t :: rest2 =>
        match charToType t with
        | none => none
        | some ty =>
          match dropToken (jchars "\",\"color\":") rest2 with
          | none => none
          | some rest3 =>
            match parseColorChars rest3 with
            | none => none
            | some (co, rest4) =>
              match dropToken [rbrace] rest4 with
              | none => none
              | some rest5 => some (some ⟨ty, co⟩, rest5)

def parseSepList (p : List Char → Option (α × List Char)) :
    Nat → List Char → Option (List α × List Char)
  | 0, _ => none
  | fuel + 1, l =>
    match p l with
    | none => none
    | some (x, rest) =>
      match rest with
      | ',' :: rest2 =>
        match parseSepList p fuel rest2 with
        | some (xs, rest3) => some (x :: xs, rest3)
        | none => none
      | _ => some ([x], rest)

def parseBracketList (p : List Char → Option (α × List Char)) (fuel : Nat)
    (l : List Char) : Option (List α × List Char) :=
  match l with
  | '[' :: rest =>
    match rest with
    | ']' :: rest2 => some ([], rest2)
    | _ =>
      match parseSepList p fuel rest with
      | some (xs, rest2) =>
        match rest2 with
        | ']' :: rest3 => some (xs, rest3)
        | _ => none
      | none => none
  | _ => none

def parseRowChars (l : List Char) : Option (List (Option Piece) × List Char) :=
  parseBracketList parseCellChars (l.length + 1) l

def parseBoardChars (l : List Char) : Option (Board × List Char) :=
  parseBracketList parseRowChars (l.length + 1) l

def parseBoolChars (l : List Char) : Option (Bool × List Char) :=
  match dropToken (jchars "true") l with
  | some rest => some (true, rest)
  | none =>
    match dropToken (jchars "false") l with
    | some rest => some (false, rest)
    | none => none

def parseRightsChars (l : List Char) : Option (CastlingRights × List Char) :=
  match dropToken (lbrace :: jchars "\"whiteKingSide\":") l with
  | none => none
  | some r1 =>
    match parseBoolChars r1 with
    | none => none
    | some (wk, r2) =>
      match dropToken (jchars ",\"whiteQueenSide\":") r2 with
      | none => none
      | some r3 =>
        match parseBoolChars r3 with
        | none => none
        | some (wq, r4) =>
          match dropToken (jchars ",\"blackKingSide\":") r4 with
          | none => none
          | some r5 =>
            match parseBoolChars r5 with
            | none => none
            | some (bk, r6) =>
              match dropToken (jchars ",\"blackQueenSide\":") r6 with
              | none => none
              | some r7 =>
                match parseBoolChars r7 with
                | none => none
                | some (bq, r8) =>
                  match dropToken [rbrace] r8 with
                  | none => none
                  | some r9 => some (⟨wk, wq, bk, bq⟩, r9)

def parseHashChars (l : List Char) :
    Option (Board × PieceColor × Option CastlingRights) :=
  match dropToken (lbrace :: jchars "\"b\":") l with
  | none => none
  | some r1 =>
    match parseBoardChars r1 with
    | none => none
    | some (board, r2) =>
      match dropToken (jchars ",\"s\":") r2 with
      | none => none
      | some r3 =>
        match parseColorChars r3 with
        | none => none
        | some (side, r4) =>
          match dropToken [rbrace] r4 with
          | some [] => some (board, side, none)
          | _ =>
            match dropToken (jchars ",\"c\":") r4 with
            | none => none
            | some r6 =>
              match parseRightsChars r6 with
              | none => none
              | some (rights, r7) =>
                match dropToken [rbrace] r7 with
                | some [] => some (board, side, some rights)
                | _ => none

/-! Concrete inputs used to evaluate the claims. -/

def rightsAll : CastlingRights := ⟨true, true, true, true⟩

/-- White king d1 (0,3) and rook h1 (0,7) with the castling path clear; a
black pawn on g2 (1,6) attacks g1 (0,5) — but only diagonally, and the
attack scan counts pawn moves onto occupied squares only, so the empty
transit squares pass the castling checks. -/
def boardPawnG2 : Board :=
  [[none, none, none, some ⟨.k, .white⟩, none, none, none, some ⟨.r, .white⟩],
   [none, none, none, none, none, none, some ⟨.p, .black⟩, none],
   [none, none, none, none, none, none, none, none],
   [none, none, none, none, none, none, none, none],
   [none, none, none, none, none, none, none, none],
   [none, none, none, none, none, none, none, none],
   [none, none, none, none, none, none, none, none],
   [none, none, none, some ⟨.k, .black⟩, none, none, none, none]]

def castleIntoCheck : Move :=
  { from_ := ⟨0, 3⟩, to_ := ⟨0, 5⟩, piece := ⟨.k, .white⟩, isCastling := true }

/-- A white pawn has just advanced two squares from (1,4) to (3,4); the
black pawn on (3,3) is adjacent, so en passant onto (2,4) is available by
the rules of chess. -/
def boardAfterDoublePush : Board :=
  [[some ⟨.k, .white⟩, none, none, none, none, none, none, none],
   [none, none, none, none, none, none, none, none],
   [none, none, none, none, none, none, none, none],
   [none, none, none, some ⟨.p, .black⟩, some ⟨.p, .white⟩, none, none, none],
   [none, none, none, none, none, none, none, none],
   [none, none, none, none, none, none, none, none],
   [none, none, none, none, none, none, none, none],
   [none, none, none, none, none, none, none, some ⟨.k, .black⟩]]

def doublePushMove : Move :=
  { from_ := ⟨1, 4⟩, to_ := ⟨3, 4⟩, piece := ⟨.p, .white⟩ }

/-- White king (0,3), rook (0,7), and a knight on (0,6) — a square between
king and rook that the kingside emptiness check (columns 4 and 5 only)
never looks at. -/
def boardKnightG1 : Board :=
  [[none, none, none, some ⟨.k, .white⟩, none, none, some ⟨.n, .white⟩,
    some ⟨.r, .white⟩],
   [none, none, none, none, none, none, none, none],
   [none, none, none, none, none, none, none, none],
   [none, none, none, none, none, none, none, none],
   [none, none, none, none, none, none, none, none],
   [none, none, none, none, none, none, none, none],
   [none, none, none, none, none, none, none, none],
   [none, none, none, some ⟨.k, .black⟩, none, none, none, none]]

def castlePastKnight : Move :=
  { from_ := ⟨0, 3⟩, to_ := ⟨0, 5⟩, piece := ⟨.k, .white⟩, isCastling := true }

/-- A clean kingside castling position: path (0,4), (0,5), (0,6) empty,
no enemy pressure. -/
def boardCleanCastle : Board :=
  [[none, none, none, some ⟨.k, .white⟩, none, none, none, some ⟨.r, .white⟩],
   [none, none, none, none, none, none, none, none],
   [none, none, none, none, none, none, none, none],
   [none, none, none, none, none, none, none, none],
   [none, none, none, none, none, none, none, none],
   [none, none, none, none, none, none, none, none],
   [none, none, none, none, none, none, none, none],
   [some ⟨.k, .black⟩, none, none, none, none, none, none, none]]

def castleClean : Move :=
  { from_ := ⟨0, 3⟩, to_ := ⟨0, 5⟩, piece := ⟨.k, .white⟩, isCastling := true }

def emptyBoard : Board :=
  List.replicate 8 (List.replicate 8 none)

/-- Both kings boxed in by their own blocked pawns, so white's root moves
are exactly five pawn pushes and black's only reply is (4,0)→(3,0). That
reply blocks the white a-pawn at the first root move's grandchild, which
makes the c-pawn's push the first quiet white move there, shifting
history-heuristic bonuses between invocations. -/
def boardTwoPawns : Board :=
  [[none, none, none, none, none, none, some ⟨.p, .black⟩, some ⟨.k, .black⟩],
   [some ⟨.p, .white⟩, none, some ⟨.p, .white⟩, none, none, none, some ⟨.p, .black⟩, some ⟨.p, .black⟩],
   [none, none, none, none, none, none, none, none],
   [none, none, none, none, none, none, none, none],
   [some ⟨.p, .black⟩, none, none, none, none, some ⟨.p, .white⟩, none, none],
   [none, none, none, none, none, none, none, none],
   [some ⟨.p, .white⟩, some ⟨.p, .white⟩, none, none, none, none, none, none],
   [some ⟨.k, .white⟩, some ⟨.p, .white⟩, none, none, none, none, none, none]]

def zeroEvalFn : Board → PieceColor → Int := fun _ _ => 0

/-- First invocation, from the module-load state. -/
def firstInvocation : Option Move × EngineState :=
  myMinimaxMove 12 initialEngineState boardTwoPawns .white 3 zeroEvalFn none
    (fun _ => false) none []

/-- Second invocation with identical inputs, from the state the first one
leaves behind. -/
def secondInvocation : Option Move × EngineState :=
  myMinimaxMove 12 firstInvocation.2 boardTwoPawns .white 3 zeroEvalFn none
    (fun _ => false) none []

/-- A fresh per-call search state over empty tables. -/
def freshS : SState :=
  ⟨[], ⟨fun _ => [], fun _ _ _ _ => 0⟩, 1, false, 0⟩

def constFifty : SearchCfg :=
  ⟨.white, fun _ _ => 50, none, fun _ => false⟩

def zeroCfg : SearchCfg :=
  ⟨.white, fun _ _ => 0, none, fun _ => false⟩

/-- The invariant of the root search: the tracked best move is `none`
exactly while the root move list is empty, and otherwise one of the root
moves. -/
def rootInv (L : List Move) : Option Move → Prop
  | none => L = []
  | some x => x ∈ L

/-- A two-kings board used to witness that the chosen move is legal. -/
def boardTwoKings : Board :=
  [[some ⟨.k, .white⟩, none, none, none, none, none, none, none],
   [none, none, none, none, none, none, none, none],
   [none, none, none, none, none, none, none, none],
   [none, none, none, none, none, none, none, none],
   [none, none, none, none, none, none, none, none],
   [none, none, none, none, none, none, none, none],
   [none, none, none, none, none, none, none, none],
   [none, none, none, none, none, none, none, some ⟨.k, .black⟩]]

/-! Decoder correctness: parsing a serialized value consumes exactly the
serialization and returns the value, for every ambient continuation. -/

theorem dropToken_append (pat rest : List Char) :
    dropToken pat (pat ++ rest) = some rest := by
  induction pat with
  | nil => rfl
  | cons p ps ih => simp [dropToken, ih]

theorem parseColorChars_roundtrip (c : PieceColor) (rest : List Char) :
    parseColorChars (serializeColor c ++ rest) = some (c, rest) := by
  cases c with
  | white =>
    show parseColorChars (jchars "\"white\"" ++ rest) = _
    unfold parseColorChars
    rw [dropToken_append]
  | black =>
    show parseColorChars (jchars "\"black\"" ++ rest) = _
    unfold parseColorChars
    have hw : dropToken (jchars "\"white\"") (jchars "\"black\"" ++ rest) =
        none := rfl
    rw [hw, dropToken_append]

theorem parseBoolChars_roundtrip (b : Bool) (rest : List Char) :
    parseBoolChars (serializeBool b ++ rest) = some (b, rest) := by
  cases b with
  | true =>
    show parseBoolChars (jchars "true" ++ rest) = _
    unfold parseBoolChars
    rw [dropToken_append]
  | false =>
    show parseBoolChars (jchars "false" ++ rest) = _
    unfold parseBoolChars
    have ht : dropToken (jchars "true") (jchars "false" ++ rest) = none := rfl
    rw [ht, dropToken_append]

theorem parseCellChars_roundtrip (cell : Option Piece) (rest : List Char) :
    parseCellChars (serializeCell cell ++ rest) = some (cell, rest) := by
  match cell with
  | none =>
    show parseCellChars (jchars "null" ++ rest) = _
    unfold parseCellChars
    rw [dropToken_append]
  | some pc =>
    obtain ⟨ty, co⟩ := pc
    cases ty <;> cases co <;> rfl

theorem parseRightsChars_roundtrip (r : CastlingRights) (rest : List Char) :
    parseRightsChars (serializeRights r ++ rest) = some (r, rest) := by
  obtain ⟨wk, wq, bk, bq⟩ := r
  cases wk <;> cases wq <;> cases bk <;> cases bq <;> rfl

theorem serializeSep_length_ge (elem : α → List Char)
    (h1 : ∀ x, 1 ≤ (elem x).length) :
    ∀ xs : List α, xs.length ≤ (serializeSep elem xs).length := by
  intro xs
  induction xs with
  | nil => simp [serializeSep]
  | cons x xs ih =>
    cases xs with
    | nil => simpa [serializeSep] using h1 x
    | cons y ys =>
      simp only [serializeSep, List.length_append, List.length_cons] at ih ⊢
      have := h1 x
      omega

theorem parseSepList_roundtrip (p : List Char → Option (α × List Char))
    (elem : α → List Char)
    (helem : ∀ x r, p (elem x ++ r) = some (x, r)) :
    ∀ (xs : List α) (fuel : Nat) (rest : List Char), xs ≠ [] →
      xs.length ≤ fuel →
      parseSepList p fuel (serializeSep elem xs ++ (']' :: rest)) =
        some (xs, ']' :: rest) := by
  intro xs
  induction xs with
  | nil => intro fuel rest h; exact absurd rfl h
  | cons x xs ih =>
    intro fuel rest _ hlen
    obtain ⟨f, rfl⟩ : ∃ f, fuel = f + 1 := by
      cases fuel with
      | zero => simp at hlen
      | succ f => exact ⟨f, rfl⟩
    cases xs with
    | nil =>
      show parseSepList p (f + 1) (elem x ++ (']' :: rest)) = _
      unfold parseSepList
      rw [helem]
      rfl
    | cons y ys =>
      have hshape : serializeSep elem (x :: y :: ys) ++ (']' :: rest) =
          elem x ++ (',' :: (serializeSep elem (y :: ys) ++ (']' :: rest))) := by
        simp [serializeSep, List.append_assoc]
      rw [hshape]
      unfold parseSepList
      rw [helem]
      simp only []
      rw [ih f rest (by simp) (by simpa using Nat.le_of_succ_le_succ hlen)]

theorem parseBracketList_roundtrip (p : List Char → Option (α × List Char))
    (elem : α → List Char)
    (helem : ∀ x r, p (elem x ++ r) = some (x, r))
    (hhead : ∀ x, ∃ ch t, elem x = ch :: t ∧ ch ≠ ']') :
    ∀ (xs : List α) (fuel : Nat) (rest : List Char), xs.length ≤ fuel →
      parseBracketList p fuel
        (('[' :: (serializeSep elem xs ++ [']'])) ++ rest) = some (xs, rest) := by
  intro xs fuel rest hlen
  cases xs with
  | nil =>
    show parseBracketList p fuel ('[' :: (']' :: rest)) = _
    rfl
  | cons x xs' =>
    obtain ⟨ch, t, hx, hne⟩ := hhead x
    have hshape : ('[' :: (serializeSep elem (x :: xs') ++ [']'])) ++ rest =
        '[' :: (serializeSep elem (x :: xs') ++ (']' :: rest)) := by
      simp [List.append_assoc]
    rw [hshape]
    have hsep := parseSepList_roundtrip p elem helem (x :: xs') fuel rest
      (by simp) hlen
    have hheadchar : ∃ u, serializeSep elem (x :: xs') ++ (']' :: rest) =
        ch :: u := by
      cases xs' with
      | nil => exact ⟨t ++ (']' :: rest), by simp [serializeSep, hx]⟩
      | cons y ys =>
        exact ⟨t ++ (',' :: serializeSep elem (y :: ys)) ++ (']' :: rest),
          by simp [serializeSep, hx]⟩
    obtain ⟨u, hu⟩ := hheadchar
    rw [hu]
    unfold parseBracketList
    split
    · rename_i rest2 heq
      have h2 : ch :: u = rest2 := (List.cons.inj heq).2
      rw [← h2]
      split
      · rename_i rest3 heq2
        exact absurd (List.cons.inj heq2).1 hne
      · rw [← hu, hsep]
        rfl
    · rename_i hcontra
      exact (hcontra (ch :: u) rfl).elim

theorem serializeCell_length_pos (cell : Option Piece) :
    1 ≤ (serializeCell cell).length := by
  cases cell with
  | none => decide
  | some pc => simp [serializeCell]

theorem serializeCell_head (cell : Option Piece) :
    ∃ ch t, serializeCell cell = ch :: t ∧ ch ≠ ']' := by
  cases cell with
  | none => exact ⟨'n', _, rfl, by decide⟩
  | some pc => exact ⟨lbrace, _, rfl, by decide⟩

theorem parseRowChars_roundtrip (r : List (Option Piece)) (rest : List Char) :
    parseRowChars (serializeRow r ++ rest) = some (r, rest) := by
  unfold parseRowChars
  apply parseBracketList_roundtrip parseCellChars serializeCell
    parseCellChars_roundtrip serializeCell_head
  have h1 := serializeSep_length_ge serializeCell serializeCell_length_pos r
  simp only [serializeRow, List.length_append, List.length_cons]
  omega

theorem serializeRow_length_pos (r : List (Option Piece)) :
    1 ≤ (serializeRow r).length := by
  simp [serializeRow]

theorem serializeRow_head (r : List (Option Piece)) :
    ∃ ch t, serializeRow r = ch :: t ∧ ch ≠ ']' := by
  exact ⟨'[', _, rfl, by decide⟩

theorem parseBoardChars_roundtrip (b : Board) (rest : List Char) :
    parseBoardChars (serializeBoard b ++ rest) = some (b, rest) := by
  unfold parseBoardChars
  have hshape : serializeBoard b ++ rest =
      ('[' :: (serializeSep serializeRow b ++ [']'])) ++ rest := rfl
  rw [hshape]
  apply parseBracketList_roundtrip parseRowChars serializeRow
    parseRowChars_roundtrip serializeRow_head
  have h1 := serializeSep_length_ge serializeRow serializeRow_length_pos b
  simp only [serializeBoard, List.length_append, List.length_cons]
  omega

theorem parseHashChars_roundtrip (b : Board) (s : PieceColor)
    (c : Option CastlingRights) :
    parseHashChars (hashPosition b s c).data = some (b, s, c) := by
  cases c with
  | none =>
    have hshape : (hashPosition b s none).data =
        (lbrace :: jchars "\"b\":") ++ (serializeBoard b ++
          (jchars ",\"s\":" ++ (serializeColor s ++ [rbrace]))) := by
      simp [hashPosition, List.append_assoc]
    rw [show parseHashChars (hashPosition b s none).data =
        parseHashChars ((lbrace :: jchars "\"b\":") ++ (serializeBoard b ++
          (jchars ",\"s\":" ++ (serializeColor s ++ [rbrace])))) from by
      rw [hshape]]
    unfold parseHashChars
    simp only [dropToken_append, parseBoardChars_roundtrip,
      parseColorChars_roundtrip]
    rfl
  | some r =>
    have hshape : (hashPosition b s (some r)).data =
        (lbrace :: jchars "\"b\":") ++ (serializeBoard b ++
          (jchars ",\"s\":" ++ (serializeColor s ++
            (jchars ",\"c\":" ++ (serializeRights r ++ [rbrace]))))) := by
      simp [hashPosition, List.append_assoc]
    rw [show parseHashChars (hashPosition b s (some r)).data =
        parseHashChars ((lbrace :: jchars "\"b\":") ++ (serializeBoard b ++
          (jchars ",\"s\":" ++ (serializeColor s ++
            (jchars ",\"c\":" ++ (serializeRights r ++ [rbrace])))))) from by
      rw [hshape]]
    unfold parseHashChars
    have hnotbrace : ∀ R : List Char,
        dropToken [rbrace] (jchars ",\"c\":" ++ R) = none := fun _ => rfl
    have hcomma : ∀ R : List Char,
        dropToken (jchars ",\"c\":") (jchars ",\"c\":" ++ R) = some R :=
      fun R => dropToken_append _ R
    simp only [dropToken_append, parseBoardChars_roundtrip,
      parseColorChars_roundtrip, hnotbrace, hcomma,
      parseRightsChars_roundtrip]
    rfl

/-- The hash encoding is injective: equal keys imply equal board, side to
move and castling rights. -/
theorem hashPosition_injective (b1 b2 : Board) (s1 s2 : PieceColor)
    (c1 c2 : Option CastlingRights)
    (h : hashPosition b1 s1 c1 = hashPosition b2 s2 c2) :
    b1 = b2 ∧ s1 = s2 ∧ c1 = c2 := by
  have hdata : (hashPosition b1 s1 c1).data = (hashPosition b2 s2 c2).data :=
    congrArg String.data h
  have h1 := parseHashChars_roundtrip b1 s1 c1
  have h2 := parseHashChars_roundtrip b2 s2 c2
  rw [hdata, h2] at h1
  have h3 : (b1, s1, c1) = (b2, s2, c2) := by
    injection h1 with h4
    exact h4.symm
  exact ⟨congrArg (fun p => p.1) h3, congrArg (fun p => p.2.1) h3,
    congrArg (fun p => p.2.2) h3⟩

/-! Claim theorems. -/

/-- Claim C5: `hashPosition` maps two positions to the same key if and
only if they agree on piece placement, side to move, and castling rights;
in particular no two distinct positions share a transposition slot. -/
theorem claim5_hash_key_exact (b1 b2 : Board) (s1 s2 : PieceColor)
    (c1 c2 : Option CastlingRights) :
    hashPosition b1 s1 c1 = hashPosition b2 s2 c2 ↔
      b1 = b2 ∧ s1 = s2 ∧ c1 = c2 := by
  constructor
  · exact hashPosition_injective b1 b2 s1 s2 c1 c2
  · rintro ⟨rfl, rfl, rfl⟩
    rfl

theorem thirdRepLoop_spec (key : String) :
    ∀ h : List String,
      (thirdRepLoop key 1 h = true ↔ 1 ≤ h.countP (fun x => x = key)) ∧
      (thirdRepLoop key 0 h = true ↔ 2 ≤ h.countP (fun x => x = key)) := by
  intro h
  induction h with
  | nil => simp [thirdRepLoop]
  | cons a t ih =>
    by_cases ha : a = key
    · constructor
      · rw [show thirdRepLoop key 1 (a :: t) = true by
          simp only [thirdRepLoop, if_pos ha]
          rw [if_pos (by omega : (1 : Int) + 1 ≥ 2)]]
        simp [List.countP_cons, ha]
      · rw [show thirdRepLoop key 0 (a :: t) = thirdRepLoop key 1 t by
          simp only [thirdRepLoop, if_pos ha]
          rw [if_neg (by omega : ¬((0 : Int) + 1 ≥ 2))]
          norm_num]
        rw [ih.1]
        simp [List.countP_cons, ha]
    · constructor
      · rw [show thirdRepLoop key 1 (a :: t) = thirdRepLoop key 1 t by
          simp [thirdRepLoop, ha]]
        rw [ih.1]
        simp [List.countP_cons, ha]
      · rw [show thirdRepLoop key 0 (a :: t) = thirdRepLoop key 0 t by
          simp [thirdRepLoop, ha]]
        rw [ih.2]
        simp [List.countP_cons, ha]

/-- Claim C6: `isThirdRepetition(candidateKey, history)` is true exactly
when the candidate key already occurs at least twice in the history — the
move would create the third occurrence, never earlier. -/
theorem claim6_third_repetition (key : String) (history : List String) :
    isThirdRepetition key history = true ↔
      2 ≤ history.countP (fun x => x = key) :=
  (thirdRepLoop_spec key history).2

/-- Claim C7: the initial board with white to move and full castling
rights has exactly 20 legal moves. -/
theorem claim7_initial_twenty_moves :
    (getValidMovesForColor createInitialBoard .white (some rightsAll)
      none).length = 20 := by
  decide

/-- Claim C1 (code bug): the generator emits the kingside castling move on
`boardPawnG2` even though applying it leaves the white king on a square
attacked by the black pawn — the returned move leaves the mover's own king
in check. -/
theorem claim1_castling_into_check :
    castleIntoCheck ∈ getValidMovesForColor boardPawnG2 .white
      (some rightsAll) none ∧
    isKingInCheck (applyMove boardPawnG2 castleIntoCheck) .white = true := by
  decide

/-- Claim C2 (code bug): immediately after the adjacent enemy pawn's
two-square advance (1,4)→(3,4), the generator offers the black pawn on
(3,3) no en-passant capture: no generated move is flagged en passant and
none goes to the en-passant square (2,4). -/
theorem claim2_no_en_passant :
    (getValidMovesForColor boardAfterDoublePush .black none
      (some doublePushMove)).all
      (fun m => !m.isEnPassant &&
        !(decide (m.to_ = (⟨2, 4⟩ : Position)))) = true := by
  decide

/-- Claim C4 counterexample: the kingside castling move is generated on
`boardKnightG1` although the square (0,6) between king and rook holds a
knight — the generated castling move does not require all squares between
king and rook to be empty. -/
theorem claim4_counterexample :
    castlePastKnight ∈ getValidMovesForColor boardKnightG1 .white
      (some rightsAll) none ∧
    getCell boardKnightG1 0 6 = some ⟨.n, .white⟩ := by
  decide

set_option maxHeartbeats 4000000 in
/-- Claim C8 counterexample: two successive invocations of
`myMinimaxMove` with identical inputs (same board, side, depth 3,
noise-free zero evaluation, no time limit) return different moves, because
the transposition table and history table persist across invocations. -/
theorem claim8_counterexample :
    firstInvocation.1 ≠ secondInvocation.1 := by
  decide

/-- Claim C8 amended: leftover killer-move state never affects the chosen
move — killer lists are cleared at the start of every invocation. -/
theorem claim8_killer_state_irrelevant (fuel : Nat) (g : EngineState)
    (k' : Int → List Move) (board : Board) (color : PieceColor) (depth : Int)
    (evalFn : Board → PieceColor → Int) (maxTime : Option Int)
    (oracle : Nat → Bool) (castlingRights : Option CastlingRights)
    (positionHistory : List String) :
    (myMinimaxMove fuel { g with tables := { g.tables with killers := k' } }
        board color depth evalFn maxTime oracle castlingRights
        positionHistory).1 =
      (myMinimaxMove fuel g board color depth evalFn maxTime oracle
        castlingRights positionHistory).1 := rfl

theorem qloop_ge (cfg : SearchCfg)
    (recur : Board → PieceColor → Int → Int → Option CastlingRights →
      SState → Int × SState)
    (board : Board) (side : PieceColor) (beta : Int)
    (rights : Option CastlingRights) (standPat : Int)
    (hbeta : standPat < beta) :
    ∀ (moves : List Move) (alpha : Int) (s : SState), standPat ≤ alpha →
      standPat ≤
        (qloop cfg recur board side beta rights moves alpha s).1 := by
  intro moves
  induction moves with
  | nil => intro alpha s h; simpa [qloop] using h
  | cons m rest ih =>
    intro alpha s h
    unfold qloop
    dsimp only
    split
    · exact h
    · split
      · exact le_of_lt hbeta
      · exact ih _ _ (le_trans h (le_max_left _ _))

/-- Claim C9 amended: whenever the standing-pat evaluation is below beta
(the fail-hard window cap), `quiescence` returns at least the standing-pat
evaluation; when the standing pat already reaches beta the function
returns beta, which can be below the standing pat. -/
theorem claim9_quiescence_standpat (cfg : SearchCfg) (fuel : Nat)
    (board : Board) (side : PieceColor) (alpha beta : Int)
    (rights : Option CastlingRights) (s : SState)
    (hexp : s.expired = false) (hmt : cfg.maxTime = none)
    (hsp : (if side = cfg.rootColor then (1 : Int) else -1) *
      cfg.evalFn board cfg.rootColor < beta) :
    (if side = cfg.rootColor then (1 : Int) else -1) *
        cfg.evalFn board cfg.rootColor ≤
      (quiescence cfg (fuel + 1) board side alpha beta rights s).1 := by
  have hct : checkTime cfg s = (false, s) := by
    simp [checkTime, hexp, hmt]
  unfold quiescence
  rw [hct]
  simp only
  rw [if_neg (not_le.mpr hsp)]
  exact qloop_ge cfg _ board side beta rights _ hsp _ _ _
    (le_max_right _ _)

/-- Claim C9 counterexample: with window alpha 0, beta 1 (alpha < beta), a
standing-pat evaluation of 50 and no captures at all, `quiescence` returns
1, strictly below the standing pat. -/
theorem claim9_counterexample :
    (quiescence constFifty 5 emptyBoard .white 0 1 none freshS).1 <
      (if PieceColor.white = constFifty.rootColor then (1 : Int) else -1) *
        constFifty.evalFn emptyBoard constFifty.rootColor ∧
    (0 : Int) < 1 ∧
    (getValidMovesForColor emptyBoard .white none none).filter
      (fun m => m.captured.isSome) = [] := by
  constructor
  · decide
  · constructor
    · decide
    · decide

theorem checkTime_none (cfg : SearchCfg) (s : SState)
    (hexp : s.expired = false) (hmt : cfg.maxTime = none) :
    checkTime cfg s = (false, s) := by
  simp [checkTime, hexp, hmt]

/-- Claim C10: a side with no king on the board is never reported in
check, and a kingless side with zero legal moves is scored 0 (stalemate)
by the search rather than as checkmate. -/
theorem claim10_kingless_not_in_check (board : Board) (side : PieceColor)
    (hk : findKing board side = none) :
    isKingInCheck board side = false ∧
    (∀ (cfg : SearchCfg) (fuel : Nat) (depth alpha beta : Int)
        (rights : Option CastlingRights) (ply : Int) (allowNull : Bool)
        (history : List String) (s : SState),
        s.expired = false → cfg.maxTime = none →
        mapGet s.tt (hashPosition board side rights) = none →
        max alpha (-mateValue + ply) < min beta (mateValue - ply - 1) →
        1 ≤ depth →
        getValidMovesForColor board side rights none = [] →
        (negamax cfg (fuel + 1) board side depth alpha beta rights ply
          allowNull history s).1 = 0) := by
  have hcheck : isKingInCheck board side = false := by
    simp [isKingInCheck, hk]
  refine ⟨hcheck, ?_⟩
  intro cfg fuel depth alpha beta rights ply allowNull history s hexp hmt htt
    hwin hdepth hmoves
  unfold negamax
  rw [checkTime_none cfg s hexp hmt]
  dsimp only
  rw [htt]
  dsimp only
  rw [if_neg (not_le.mpr hwin)]
  rw [if_neg (by omega : ¬depth ≤ 0)]
  rw [hmoves]
  simp [hcheck]

/-- Claim C10 witness at the empty board: not in check, and a depth-1
negamax node scores it 0. -/
theorem claim10_witness :
    isKingInCheck emptyBoard .white = false ∧
    (negamax zeroCfg 1 emptyBoard .white 1 (-100) 100 none 0 true []
      freshS).1 = 0 := by
  have h := claim10_kingless_not_in_check emptyBoard .white (by decide)
  exact ⟨h.1, h.2 zeroCfg 0 1 (-100) 100 none 0 true [] freshS rfl rfl rfl
    (by decide) (by decide) (by decide)⟩

theorem mem_insertByDesc (key : Move → Int) (x : Move) :
    ∀ (l : List Move) (m : Move), m ∈ insertByDesc key x l → m = x ∨ m ∈ l := by
  intro l
  induction l with
  | nil =>
    intro m hm
    simp [insertByDesc] at hm
    exact Or.inl hm
  | cons y ys ih =>
    intro m hm
    unfold insertByDesc at hm
    split at hm
    · rcases List.mem_cons.mp hm with h | h
      · exact Or.inl h
      · exact Or.inr h
    · rcases List.mem_cons.mp hm with h | h
      · exact Or.inr (List.mem_cons.mpr (Or.inl h))
      · rcases ih m h with h2 | h2
        · exact Or.inl h2
        · exact Or.inr (List.mem_cons.mpr (Or.inr h2))

theorem foldl_insert_mem (key : Move → Int) :
    ∀ (l acc : List Move) (m : Move),
      m ∈ List.foldl (fun acc x => insertByDesc key x acc) acc l →
      m ∈ acc ∨ m ∈ l := by
  intro l
  induction l with
  | nil => intro acc m h; exact Or.inl h
  | cons x xs ih =>
    intro acc m h
    rcases ih (insertByDesc key x acc) m h with h2 | h2
    · rcases mem_insertByDesc key x acc m h2 with h3 | h3
      · exact Or.inr (by simp [h3])
      · exact Or.inl h3
    · exact Or.inr (List.mem_cons.mpr (Or.inr h2))

theorem mem_stableSortDesc (key : Move → Int) (l : List Move) (m : Move)
    (hm : m ∈ stableSortDesc key l) : m ∈ l := by
  rcases foldl_insert_mem key l [] m hm with h2 | h2
  · simp at h2
  · exact h2

theorem mem_orderMoves (t : Tables) (moves : List Move) (ply : Int)
    (tb : Option Move) (m : Move) (hm : m ∈ orderMoves t moves ply tb) :
    m ∈ moves :=
  mem_stableSortDesc _ moves m hm

set_option maxHeartbeats 1600000 in
theorem rloop_inv (cfg : SearchCfg) (fuel : Nat) (board : Board)
    (color : PieceColor) (rights : Option CastlingRights) (depth beta : Int)
    (history : List String) (L : List Move) :
    ∀ (moves : List Move), (∀ x ∈ moves, x ∈ L) →
      ∀ (bs : Int) (bm : Option Move) (alpha : Int) (s : SState),
        rootInv L bm →
        rootInv L (rloop cfg fuel board color rights depth beta history
          moves bs bm alpha s).1 := by
  intro moves
  induction moves with
  | nil =>
    intro _ bs bm alpha s h
    exact h
  | cons mv rest ih =>
    intro hsub bs bm alpha s hbm
    unfold rloop
    dsimp only
    split
    · exact hbm
    · by_cases h1 : (rootMoveScore cfg fuel board color rights depth beta
          alpha history mv (checkTime cfg s).2).1 > bs
      · simp only [if_pos h1]
        split <;> split
        · exact hsub mv (by simp)
        · exact ih (fun x hx => hsub x (List.mem_cons.mpr (Or.inr hx)))
            _ _ _ _ (show rootInv L (some mv) from hsub mv (by simp))
        · exact hsub mv (by simp)
        · exact ih (fun x hx => hsub x (List.mem_cons.mpr (Or.inr hx)))
            _ _ _ _ (show rootInv L (some mv) from hsub mv (by simp))
      · simp only [if_neg h1]
        split <;> split
        · exact hbm
        · exact ih (fun x hx => hsub x (List.mem_cons.mpr (Or.inr hx)))
            _ _ _ _ hbm
        · exact hbm
        · exact ih (fun x hx => hsub x (List.mem_cons.mpr (Or.inr hx)))
            _ _ _ _ hbm

set_option maxHeartbeats 1600000 in
theorem searchRoot_inv (cfg : SearchCfg) (fuel : Nat) (board : Board)
    (color : PieceColor) (rights : Option CastlingRights) (depth : Int)
    (history : List String) (bm : Option Move) (s : SState)
    (hbm : rootInv (getValidMovesForColor board color rights none) bm) :
    rootInv (getValidMovesForColor board color rights none)
      (searchRoot cfg fuel board color rights depth history bm s).1 := by
  unfold searchRoot
  dsimp only
  split
  · exact hbm
  · split
    · exact hbm
    · exact rloop_inv cfg fuel board color rights depth _ history _ _
        (fun x hx => mem_orderMoves _ _ _ _ x hx) _ _ _ _ hbm

set_option maxHeartbeats 1600000 in
theorem driver_inv (cfg : SearchCfg) (fuel : Nat) (board : Board)
    (color : PieceColor) (rights : Option CastlingRights)
    (history : List String) :
    ∀ (n : Nat) (d : Int) (bm : Option Move) (s : SState),
      rootInv (getValidMovesForColor board color rights none) bm →
      rootInv (getValidMovesForColor board color rights none)
        (driver cfg fuel board color rights history n d bm s).1 := by
  intro n
  induction n with
  | zero =>
    intro d bm s h
    simpa [driver] using h
  | succ k ih =>
    intro d bm s hbm
    unfold driver
    dsimp only
    split
    · exact hbm
    · have h2 := searchRoot_inv cfg fuel board color rights d history bm
        (checkTime cfg s).2 hbm
      split
      · exact hbm
      · split
        · exact h2
        · exact ih _ _ _ h2

set_option maxHeartbeats 1600000 in
/-- Claim C3: `myMinimaxMove` returns `null` exactly when the side to move
has zero legal moves, and whenever it returns a move, that move is one of
the legal moves of the input position — for every engine state, time
oracle, depth and evaluation function, including when time expires before
any depth completes. -/
theorem claim3_minimax_legal (fuel : Nat) (g : EngineState) (board : Board)
    (color : PieceColor) (depth : Int)
    (evalFn : Board → PieceColor → Int) (maxTime : Option Int)
    (oracle : Nat → Bool) (castlingRights : Option CastlingRights)
    (positionHistory : List String) :
    ((myMinimaxMove fuel g board color depth evalFn maxTime oracle
        castlingRights positionHistory).1 = none ↔
      getValidMovesForColor board color castlingRights none = []) ∧
    (∀ m, (myMinimaxMove fuel g board color depth evalFn maxTime oracle
        castlingRights positionHistory).1 = some m →
      m ∈ getValidMovesForColor board color castlingRights none) := by
  have hinv : rootInv (getValidMovesForColor board color castlingRights none)
      (myMinimaxMove fuel g board color depth evalFn maxTime oracle
        castlingRights positionHistory).1 := by
    unfold myMinimaxMove
    dsimp only
    apply driver_inv
    cases hL : getValidMovesForColor board color castlingRights none with
    | nil => simp [hL, rootInv]
    | cons a t => simp [hL, rootInv]
  constructor
  · constructor
    · intro h
      rw [h] at hinv
      exact hinv
    · intro h
      cases hres : (myMinimaxMove fuel g board color depth evalFn maxTime
          oracle castlingRights positionHistory).1 with
      | none => rfl
      | some x =>
        rw [hres] at hinv
        rw [h] at hinv
        simp [rootInv] at hinv
  · intro m hm
    rw [hm] at hinv
    exact hinv

/-- Claim C3 witness: on the two-kings board the engine returns the king
move (0,0)→(0,1), and by the claim theorem that move is a legal move of
the position. -/
theorem claim3_witness :
    ({ from_ := ⟨0, 0⟩, to_ := ⟨0, 1⟩, piece := ⟨.k, .white⟩ } : Move) ∈
      getValidMovesForColor boardTwoKings .white none none :=
  (claim3_minimax_legal 5 initialEngineState boardTwoKings .white 1
    zeroEvalFn none (fun _ => false) none []).2 _ (by decide)

/-- Claim C9 witness: at the empty board with window (-3, 5) and the zero
evaluation, quiescence returns at least the standing pat 0. -/
theorem claim9_witness :
    (if PieceColor.white = zeroCfg.rootColor then (1 : Int) else -1) *
        zeroCfg.evalFn emptyBoard zeroCfg.rootColor ≤
      (quiescence zeroCfg 4 emptyBoard .white (-3) 5 none freshS).1 :=
  claim9_quiescence_standpat zeroCfg 3 emptyBoard .white (-3) 5 none freshS
    rfl rfl (by decide)

/-! Cell-level lemmas about `setCell` and `getCell` on 8×8 boards. -/

theorem getCell_setCell_ne (b : Board) (row col row' col' : Int)
    (v : Option Piece) (h : row ≠ row' ∨ col ≠ col') :
    getCell (setCell b row col v) row' col' = getCell b row' col' := by
  unfold setCell
  split
  · rfl
  · rename_i hneg
    split
    · rfl
    · rename_i rowList hrl
      unfold getCell
      split
      · rfl
      · rename_i hneg'
        push_neg at hneg hneg'
        by_cases hr : row = row'
        · subst hr
          rcases h with h | h
          · exact absurd rfl h
          · have hlt : row.toNat < b.length := by
              rcases List.get?_eq_some.mp hrl with ⟨hl, _⟩
              exact hl
            rw [List.get?_set_eq_of_lt _ hlt, hrl]
            have hc : col.toNat ≠ col'.toNat := by omega
            dsimp only
            rw [List.get?_set_ne _ _ hc]
        · have hr2 : row.toNat ≠ row'.toNat := by omega
          rw [List.get?_set_ne _ _ hr2]

theorem isStdBoard_setCell (b : Board) (row col : Int) (v : Option Piece)
    (hb : isStdBoard b) : isStdBoard (setCell b row col v) := by
  unfold setCell
  split
  · exact hb
  · split
    · exact hb
    · rename_i rowList hrl
      constructor
      · rw [List.length_set]
        exact hb.1
      · intro r hr
        rcases List.mem_or_eq_of_mem_set hr with h | h
        · exact hb.2 r h
        · subst h
          rw [List.length_set]
          exact hb.2 rowList (List.get?_mem hrl)

theorem getCell_setCell_self (b : Board) (hb : isStdBoard b)
    (row col : Int) (v : Option Piece) (hr0 : 0 ≤ row) (hr8 : row < 8)
    (hc0 : 0 ≤ col) (hc8 : col < 8) :
    getCell (setCell b row col v) row col = v := by
  have hltr : row.toNat < b.length := by
    rw [hb.1]; omega
  have hcell : ∃ rowList, b.get? row.toNat = some rowList := by
    cases hrl : b.get? row.toNat with
    | none =>
      rw [List.get?_eq_none] at hrl
      omega
    | some rl => exact ⟨rl, rfl⟩
  obtain ⟨rowList, hrl⟩ := hcell
  have hltc : col.toNat < rowList.length := by
    rw [hb.2 rowList (List.get?_mem hrl)]; omega
  unfold setCell getCell
  rw [if_neg (by omega), hrl]
  rw [if_neg (by omega)]
  rw [List.get?_set_eq_of_lt _ hltr]
  dsimp only
  rw [List.get?_set_eq_of_lt _ hltc]

/-! Decomposition of the move generator for castling moves. -/

theorem mem_generator_cases (board : Board) (color : PieceColor)
    (rights : Option CastlingRights) (lastMove : Option Move) (m : Move)
    (hm : m ∈ getValidMovesForColor board color rights lastMove) :
    ∃ row col : Nat, m ∈ movesForCell board color rights row col := by
  unfold getValidMovesForColor at hm
  rcases List.mem_flatMap.mp hm with ⟨row, _, hrow⟩
  rcases List.mem_flatMap.mp hrow with ⟨col, _, hcol⟩
  exact ⟨row, col, hcol⟩

theorem movesForCell_castling_mem (board : Board) (color : PieceColor)
    (rights : Option CastlingRights) (row col : Int) (m : Move)
    (hm : m ∈ movesForCell board color rights row col)
    (hc : m.isCastling = true) :
    ∃ piece cr, getCell board row col = some piece ∧ piece.color = color ∧
      piece.type = .k ∧ rights = some cr ∧
      m = { from_ := ⟨row, col⟩, to_ := m.to_, piece := piece,
            isCastling := true } ∧
      m.to_ ∈ getCastlingMoves board ⟨row, col⟩ color
        (if color = .white then ⟨cr.whiteKingSide, cr.whiteQueenSide⟩
         else ⟨cr.blackKingSide, cr.blackQueenSide⟩)
        (isKingInCheck board color) := by
  unfold movesForCell at hm
  cases hcell : getCell board row col with
  | none => rw [hcell] at hm; simp at hm
  | some piece =>
    rw [hcell] at hm
    dsimp only at hm
    split at hm
    · simp at hm
    · rename_i hcolor
      rcases List.mem_append.mp hm with h | h
      · rcases List.mem_map.mp h with ⟨t, _, hmt⟩
        rw [← hmt] at hc
        simp at hc
      · split at h
        · rename_i htype
          cases hrts : rights with
          | none => rw [hrts] at h; simp at h
          | some cr =>
            rw [hrts] at h
            dsimp only at h
            rcases List.mem_map.mp h with ⟨t, ht, hmt⟩
            refine ⟨piece, cr, rfl, by simpa using hcolor, htype, rfl,
              ?_, ?_⟩
            · rw [← hmt]
            · rw [← hmt] at *
              exact ht
        · simp at h

theorem rowvals (color : PieceColor) :
    (if color = .white then (0 : Int) else 7) = 0 ∨
      (if color = .white then (0 : Int) else 7) = 7 := by
  cases color <;> simp

theorem mem_flag_branch {α : Type} (t : α) (flag : Bool) (l : List α)
    (h : t ∈ (if flag then l else [])) : flag = true ∧ t ∈ l := by
  split at h
  · exact ⟨by assumption, h⟩
  · simp at h

theorem mem_rook_branch (t : Position) (cell : Option Piece)
    (guard : Piece → Bool) (mk : Position)
    (h : t ∈ (match cell with
      | some rk => if guard rk then [mk] else []
      | none => ([] : List Position))) :
    ∃ rk, cell = some rk ∧ guard rk = true ∧ t = mk := by
  cases cell with
  | none => simp at h
  | some rk =>
    dsimp only at h
    split at h
    · exact ⟨rk, rfl, by assumption, by simpa using h⟩
    · simp at h

theorem getCastlingMoves_mem (board : Board) (from_ : Position)
    (color : PieceColor) (sr : SideRights) (inCheck : Bool) (t : Position)
    (ht : t ∈ getCastlingMoves board from_ color sr inCheck) :
    from_ = ⟨(if color = .white then (0 : Int) else 7), 3⟩ ∧
    inCheck = false ∧
    ((t = ⟨(if color = .white then (0 : Int) else 7), 5⟩ ∧
      sr.kingSide = true ∧
      (∃ rk, getCell board (if color = .white then (0 : Int) else 7) 7 =
          some rk ∧ rk.type = .r ∧ rk.color = color) ∧
      getCell board (if color = .white then (0 : Int) else 7) 4 = none ∧
      getCell board (if color = .white then (0 : Int) else 7) 5 = none ∧
      isPositionUnderAttack board
        ⟨(if color = .white then (0 : Int) else 7), 4⟩
        (otherColor color) = false ∧
      isPositionUnderAttack board
        ⟨(if color = .white then (0 : Int) else 7), 5⟩
        (otherColor color) = false) ∨
     (t = ⟨(if color = .white then (0 : Int) else 7), 1⟩ ∧
      sr.queenSide = true ∧
      (∃ rk, getCell board (if color = .white then (0 : Int) else 7) 0 =
          some rk ∧ rk.type = .r ∧ rk.color = color) ∧
      getCell board (if color = .white then (0 : Int) else 7) 1 = none ∧
      getCell board (if color = .white then (0 : Int) else 7) 2 = none ∧
      isPositionUnderAttack board
        ⟨(if color = .white then (0 : Int) else 7), 1⟩
        (otherColor color) = false ∧
      isPositionUnderAttack board
        ⟨(if color = .white then (0 : Int) else 7), 2⟩
        (otherColor color) = false)) := by
  unfold getCastlingMoves at ht
  generalize hrow : (if color = PieceColor.white then (0 : Int) else 7) =
    row at ht ⊢
  dsimp only at ht
  split at ht
  · simp at ht
  · rename_i hpos
    push_neg at hpos
    split at ht
    · simp at ht
    · rename_i hcheck
      refine ⟨?_, by simpa using hcheck, ?_⟩
      · obtain ⟨h1, h2⟩ := hpos
        cases from_
        simp only at h1 h2
        rw [h1, h2]
      · rcases List.mem_append.mp ht with h | h
        · left
          obtain ⟨hks, h2⟩ := mem_flag_branch t sr.kingSide _ h
          obtain ⟨rk, hcell, hguard, rfl⟩ := mem_rook_branch t _ _ _ h2
          simp only [Bool.and_eq_true, decide_eq_true_eq, List.all_cons,
            List.all_nil, Bool.and_true, Bool.not_eq_true',
            Option.isNone_iff_eq_none] at hguard
          obtain ⟨⟨⟨hrt, hrc⟩, hc4, hc5⟩, ha4, ha5⟩ := hguard
          exact ⟨rfl, hks, ⟨rk, hcell, hrt, hrc⟩, hc4, hc5, ha4, ha5⟩
        · right
          obtain ⟨hqs, h2⟩ := mem_flag_branch t sr.queenSide _ h
          obtain ⟨rk, hcell, hguard, rfl⟩ := mem_rook_branch t _ _ _ h2
          simp only [Bool.and_eq_true, decide_eq_true_eq, List.all_cons,
            List.all_nil, Bool.and_true, Bool.not_eq_true',
            Option.isNone_iff_eq_none] at hguard
          obtain ⟨⟨⟨hrt, hrc⟩, hc1, hc2⟩, ha1, ha2⟩ := hguard
          exact ⟨rfl, hqs, ⟨rk, hcell, hrt, hrc⟩, hc1, hc2, ha1, ha2⟩

theorem applyMove_castle_kingside (board : Board) (hb : isStdBoard board)
    (color : PieceColor) (row : Int) (hrow : row = 0 ∨ row = 7)
    (hk : getCell board row 3 = some ⟨.k, color⟩) :
    getCell (applyMove board ⟨⟨row, 3⟩, ⟨row, 5⟩, ⟨.k, color⟩, none, none,
        true, false⟩) row 5 = some ⟨.k, color⟩ ∧
    getCell (applyMove board ⟨⟨row, 3⟩, ⟨row, 5⟩, ⟨.k, color⟩, none, none,
        true, false⟩) row 4 = getCell board row 7 ∧
    getCell (applyMove board ⟨⟨row, 3⟩, ⟨row, 5⟩, ⟨.k, color⟩, none, none,
        true, false⟩) row 3 = none ∧
    getCell (applyMove board ⟨⟨row, 3⟩, ⟨row, 5⟩, ⟨.k, color⟩, none, none,
        true, false⟩) row 7 = none := by
  have hbnd : (0 : Int) ≤ row ∧ row < 8 := by
    rcases hrow with rfl | rfl <;> norm_num
  have happ : applyMove board ⟨⟨row, 3⟩, ⟨row, 5⟩, ⟨.k, color⟩, none, none,
      true, false⟩ =
      setCell (setCell (setCell (setCell board row 5 (some ⟨.k, color⟩))
        row 3 none) row 4 (getCell (setCell (setCell board row 5
          (some ⟨.k, color⟩)) row 3 none) row 7)) row 7 none := by
    unfold applyMove
    dsimp only
    rw [hk]
    rfl
  have hstd1 : isStdBoard (setCell board row 5 (some ⟨.k, color⟩)) :=
    isStdBoard_setCell _ _ _ _ hb
  have hstd2 : isStdBoard (setCell (setCell board row 5 (some ⟨.k, color⟩))
      row 3 none) := isStdBoard_setCell _ _ _ _ hstd1
  have hstd3 : isStdBoard (setCell (setCell (setCell board row 5
      (some ⟨.k, color⟩)) row 3 none) row 4 (getCell (setCell (setCell board
        row 5 (some ⟨.k, color⟩)) row 3 none) row 7)) :=
    isStdBoard_setCell _ _ _ _ hstd2
  have h75 : ((7 : Int) ≠ 5) := by norm_num
  have h45 : ((4 : Int) ≠ 5) := by norm_num
  have h35 : ((3 : Int) ≠ 5) := by norm_num
  have h74 : ((7 : Int) ≠ 4) := by norm_num
  have h73 : ((7 : Int) ≠ 3) := by norm_num
  have h43 : ((4 : Int) ≠ 3) := by norm_num
  have h37 : ((3 : Int) ≠ 7) := by norm_num
  have h57 : ((5 : Int) ≠ 7) := by norm_num
  have hrook : getCell (setCell (setCell board row 5 (some ⟨.k, color⟩))
      row 3 none) row 7 = getCell board row 7 := by
    rw [getCell_setCell_ne _ _ _ _ _ _ (Or.inr h37),
      getCell_setCell_ne _ _ _ _ _ _ (Or.inr h57)]
  refine ⟨?_, ?_, ?_, ?_⟩
  · rw [happ, getCell_setCell_ne _ _ _ _ _ _ (Or.inr h75),
      getCell_setCell_ne _ _ _ _ _ _ (Or.inr h45),
      getCell_setCell_ne _ _ _ _ _ _ (Or.inr h35),
      getCell_setCell_self board hb row 5 _ hbnd.1 hbnd.2 (by norm_num)
        (by norm_num)]
  · rw [happ, getCell_setCell_ne _ _ _ _ _ _ (Or.inr h74),
      getCell_setCell_self _ hstd2 row 4 _ hbnd.1 hbnd.2 (by norm_num)
        (by norm_num), hrook]
  · rw [happ, getCell_setCell_ne _ _ _ _ _ _ (Or.inr h73),
      getCell_setCell_ne _ _ _ _ _ _ (Or.inr h43),
      getCell_setCell_self _ hstd1 row 3 _ hbnd.1 hbnd.2 (by norm_num)
        (by norm_num)]
  · rw [happ, getCell_setCell_self _ hstd3 row 7 _ hbnd.1 hbnd.2
      (by norm_num) (by norm_num)]

theorem applyMove_castle_queenside (board : Board) (hb : isStdBoard board)
    (color : PieceColor) (row : Int) (hrow : row = 0 ∨ row = 7)
    (hk : getCell board row 3 = some ⟨.k, color⟩) :
    getCell (applyMove board ⟨⟨row, 3⟩, ⟨row, 1⟩, ⟨.k, color⟩, none, none,
        true, false⟩) row 1 = some ⟨.k, color⟩ ∧
    getCell (applyMove board ⟨⟨row, 3⟩, ⟨row, 1⟩, ⟨.k, color⟩, none, none,
        true, false⟩) row 2 = getCell board row 0 ∧
    getCell (applyMove board ⟨⟨row, 3⟩, ⟨row, 1⟩, ⟨.k, color⟩, none, none,
        true, false⟩) row 3 = none ∧
    getCell (applyMove board ⟨⟨row, 3⟩, ⟨row, 1⟩, ⟨.k, color⟩, none, none,
        true, false⟩) row 0 = none := by
  have hbnd : (0 : Int) ≤ row ∧ row < 8 := by
    rcases hrow with rfl | rfl <;> norm_num
  have happ : applyMove board ⟨⟨row, 3⟩, ⟨row, 1⟩, ⟨.k, color⟩, none, none,
      true, false⟩ =
      setCell (setCell (setCell (setCell board row 1 (some ⟨.k, color⟩))
        row 3 none) row 2 (getCell (setCell (setCell board row 1
          (some ⟨.k, color⟩)) row 3 none) row 0)) row 0 none := by
    unfold applyMove
    dsimp only
    rw [hk]
    rfl
  have hstd1 : isStdBoard (setCell board row 1 (some ⟨.k, color⟩)) :=
    isStdBoard_setCell _ _ _ _ hb
  have hstd2 : isStdBoard (setCell (setCell board row 1 (some ⟨.k, color⟩))
      row 3 none) := isStdBoard_setCell _ _ _ _ hstd1
  have hstd3 : isStdBoard (setCell (setCell (setCell board row 1
      (some ⟨.k, color⟩)) row 3 none) row 2 (getCell (setCell (setCell board
        row 1 (some ⟨.k, color⟩)) row 3 none) row 0)) :=
    isStdBoard_setCell _ _ _ _ hstd2
  have h01 : ((0 : Int) ≠ 1) := by norm_num
  have h21 : ((2 : Int) ≠ 1) := by norm_num
  have h31 : ((3 : Int) ≠ 1) := by norm_num
  have h02 : ((0 : Int) ≠ 2) := by norm_num
  have h03 : ((0 : Int) ≠ 3) := by norm_num
  have h23 : ((2 : Int) ≠ 3) := by norm_num
  have h30 : ((3 : Int) ≠ 0) := by norm_num
  have h10 : ((1 : Int) ≠ 0) := by norm_num
  have hrook : getCell (setCell (setCell board row 1 (some ⟨.k, color⟩))
      row 3 none) row 0 = getCell board row 0 := by
    rw [getCell_setCell_ne _ _ _ _ _ _ (Or.inr h30),
      getCell_setCell_ne _ _ _ _ _ _ (Or.inr h10)]
  refine ⟨?_, ?_, ?_, ?_⟩
  · rw [happ, getCell_setCell_ne _ _ _ _ _ _ (Or.inr h01),
      getCell_setCell_ne _ _ _ _ _ _ (Or.inr h21),
      getCell_setCell_ne _ _ _ _ _ _ (Or.inr h31),
      getCell_setCell_self board hb row 1 _ hbnd.1 hbnd.2 (by norm_num)
        (by norm_num)]
  · rw [happ, getCell_setCell_ne _ _ _ _ _ _ (Or.inr h02),
      getCell_setCell_self _ hstd2 row 2 _ hbnd.1 hbnd.2 (by norm_num)
        (by norm_num), hrook]
  · rw [happ, getCell_setCell_ne _ _ _ _ _ _ (Or.inr h03),
      getCell_setCell_ne _ _ _ _ _ _ (Or.inr h23),
      getCell_setCell_self _ hstd1 row 3 _ hbnd.1 hbnd.2 (by norm_num)
        (by norm_num)]
  · rw [happ, getCell_setCell_self _ hstd3 row 0 _ hbnd.1 hbnd.2
      (by norm_num) (by norm_num)]

/-- Claim C4 amended: a castling move is generated only when the matching
right is still held, the king's path squares (the castled-to square and
the square crossed) are empty and unattacked per the engine's attack scan,
and the king is not in check; applying it puts the king on the castled
square and the rook on the adjacent square, emptying their origins.  (The
square adjacent to the kingside rook, column 6, is not required to be
empty.) -/
theorem claim4_castling_conditions (board : Board) (color : PieceColor)
    (cr : CastlingRights) (lastMove : Option Move) (m : Move)
    (hb : isStdBoard board)
    (hm : m ∈ getValidMovesForColor board color (some cr) lastMove)
    (hc : m.isCastling = true) :
    m.from_ = ⟨(if color = .white then (0 : Int) else 7), 3⟩ ∧
    m.piece = ⟨.k, color⟩ ∧
    isKingInCheck board color = false ∧
    ((m.to_ = ⟨(if color = .white then (0 : Int) else 7), 5⟩ ∧
      (if color = .white then cr.whiteKingSide else cr.blackKingSide) =
        true ∧
      (∃ rk, getCell board (if color = .white then (0 : Int) else 7) 7 =
          some rk ∧ rk.type = .r ∧ rk.color = color) ∧
      getCell board (if color = .white then (0 : Int) else 7) 4 = none ∧
      getCell board (if color = .white then (0 : Int) else 7) 5 = none ∧
      isPositionUnderAttack board
        ⟨(if color = .white then (0 : Int) else 7), 4⟩
        (otherColor color) = false ∧
      isPositionUnderAttack board
        ⟨(if color = .white then (0 : Int) else 7), 5⟩
        (otherColor color) = false ∧
      getCell (applyMove board m) (if color = .white then (0 : Int) else 7)
        5 = some ⟨.k, color⟩ ∧
      getCell (applyMove board m) (if color = .white then (0 : Int) else 7)
        4 = getCell board (if color = .white then (0 : Int) else 7) 7 ∧
      getCell (applyMove board m) (if color = .white then (0 : Int) else 7)
        3 = none ∧
      getCell (applyMove board m) (if color = .white then (0 : Int) else 7)
        7 = none) ∨
     (m.to_ = ⟨(if color = .white then (0 : Int) else 7), 1⟩ ∧
      (if color = .white then cr.whiteQueenSide else cr.blackQueenSide) =
        true ∧
      (∃ rk, getCell board (if color = .white then (0 : Int) else 7) 0 =
          some rk ∧ rk.type = .r ∧ rk.color = color) ∧
      getCell board (if color = .white then (0 : Int) else 7) 1 = none ∧
      getCell board (if color = .white then (0 : Int) else 7) 2 = none ∧
      isPositionUnderAttack board
        ⟨(if color = .white then (0 : Int) else 7), 1⟩
        (otherColor color) = false ∧
      isPositionUnderAttack board
        ⟨(if color = .white then (0 : Int) else 7), 2⟩
        (otherColor color) = false ∧
      getCell (applyMove board m) (if color = .white then (0 : Int) else 7)
        1 = some ⟨.k, color⟩ ∧
      getCell (applyMove board m) (if color = .white then (0 : Int) else 7)
        2 = getCell board (if color = .white then (0 : Int) else 7) 0 ∧
      getCell (applyMove board m) (if color = .white then (0 : Int) else 7)
        3 = none ∧
      getCell (applyMove board m) (if color = .white then (0 : Int) else 7)
        0 = none)) := by
  obtain ⟨rowN, colN, hcellmem⟩ :=
    mem_generator_cases board color (some cr) lastMove m hm
  obtain ⟨piece, cr', hget, hcolor, htype, hcr, hmeq, hto⟩ :=
    movesForCell_castling_mem board color (some cr) rowN colN m hcellmem hc
  have hcr2 : cr' = cr := by injection hcr.symm
  rw [hcr2] at hto
  obtain ⟨hfrom, hcheck, hdisj⟩ :=
    getCastlingMoves_mem board ⟨rowN, colN⟩ color _ _ m.to_ hto
  have hrowN : (rowN : Int) = (if color = .white then (0 : Int) else 7) := by
    injection hfrom with h1 h2
  have hcolN : (colN : Int) = 3 := by
    injection hfrom with h1 h2
  have hpieceeq : piece = ⟨.k, color⟩ := by
    obtain ⟨pt, pc⟩ := piece
    dsimp only at htype hcolor
    rw [htype, hcolor]
  rw [hpieceeq] at hget hmeq
  rw [hrowN, hcolN] at hget
  have hpiece : m.piece = ⟨.k, color⟩ := by rw [hmeq]
  have hfrom' : m.from_ = ⟨(if color = .white then (0 : Int) else 7), 3⟩ := by
    rw [hmeq]
    dsimp only
    rw [hrowN, hcolN]
  refine ⟨hfrom', hpiece, by simpa using hcheck, ?_⟩
  rcases hdisj with ⟨hto5, hks, hrook, hc4, hc5, ha4, ha5⟩ |
    ⟨hto1, hqs, hrook, hc1, hc2, ha1, ha2⟩
  · left
    have hmlit : m = ⟨⟨(if color = .white then (0 : Int) else 7), 3⟩,
        ⟨(if color = .white then (0 : Int) else 7), 5⟩, ⟨.k, color⟩,
        none, none, true, false⟩ := by
      rw [hmeq, hto5, hrowN, hcolN]
    have happly := applyMove_castle_kingside board hb color _
      (rowvals color) hget
    rw [← hmlit] at happly
    have hksflag : (if color = .white then cr.whiteKingSide
        else cr.blackKingSide) = true := by
      cases color <;> simpa using hks
    exact ⟨hto5, hksflag, hrook, hc4, hc5, ha4, ha5, happly.1, happly.2.1,
      happly.2.2.1, happly.2.2.2⟩
  · right
    have hmlit : m = ⟨⟨(if color = .white then (0 : Int) else 7), 3⟩,
        ⟨(if color = .white then (0 : Int) else 7), 1⟩, ⟨.k, color⟩,
        none, none, true, false⟩ := by
      rw [hmeq, hto1, hrowN, hcolN]
    have happly := applyMove_castle_queenside board hb color _
      (rowvals color) hget
    rw [← hmlit] at happly
    have hqsflag : (if color = .white then cr.whiteQueenSide
        else cr.blackQueenSide) = true := by
      cases color <;> simpa using hqs
    exact ⟨hto1, hqsflag, hrook, hc1, hc2, ha1, ha2, happly.1, happly.2.1,
      happly.2.2.1, happly.2.2.2⟩

/-- Claim C4 witness: on the clean castling board the generated kingside
castling move starts at (0,3) with the white king not in check. -/
theorem claim4_witness :
    castleClean.from_ = (⟨0, 3⟩ : Position) ∧
    isKingInCheck boardCleanCastle .white = false := by
  have h := claim4_castling_conditions boardCleanCastle .white rightsAll
    none castleClean (by decide) (by decide) rfl
  exact ⟨h.1, h.2.2.1⟩

end Chess
